import Mathlib

/-!
Verification of the pay-per-event relay core (main.go, utils.go).

The Go code is shallowly embedded:
- `nostr.Event` becomes the structure `Event`; tags are `List (List String)`.
- Network subscriptions (`pool.SubManyEose`, `pool.SubMany`) deliver a stream
  of events; we model a stream as the `List Event` the subscription yields.
- External opaque capabilities are parameters: `parseDesc` stands for
  `json.Unmarshal` into `Description`, `decode` stands for
  `decodepay.Decodepay` (returning the `MSatoshi` field; `none` on error).
- Go `int64` arithmetic is modelled by `Int`; Go integer division truncates
  toward zero, which is `Int.tdiv`, and `int64` addition wraps on overflow,
  which is `wrap64`.
- A Go runtime panic from an out-of-range slice index is modelled explicitly
  (`TagLookup.crash`, and `none` results for aggregates whose loop panics).
-/

/-- Description mirrors the struct `Description` of main.go: the embedded
zap-request payload carried inside a zap receipt's description tag. -/
structure Description where
  pubkey : String
  content : String
  id : String
  createdAt : Int
  sig : String
  kind : Int
  tags : List (List String)
deriving DecidableEq

/-- Event mirrors `nostr.Event`: id, author pubkey, created_at, kind,
tags, content, signature. -/
structure Event where
  id : String
  pubkey : String
  createdAt : Int
  kind : Int
  tags : List (List String)
  content : String
  sig : String
deriving DecidableEq

/-- TagLookup is the outcome of `ValueFromTag` in utils.go: a found value, the
`tag not found` error, or a Go runtime panic from indexing `tag[0]` or
`tag[1]` out of range. -/
inductive TagLookup where
  | found (value : String)
  | notFound
  | crash
deriving DecidableEq

/-- ValueFromTag embeds `ValueFromTag` of utils.go. The Go loop reads
`tag[0]` unconditionally (panics on an empty tag) and, when `tag[0] == key`,
returns `&tag[1]` without any length check (panics on a one-element tag). -/
def ValueFromTag (tags : List (List String)) (key : String) : TagLookup :=
  match tags with
  | [] => TagLookup.notFound
  | tag :: rest =>
    match tag with
    | [] => TagLookup.crash
    | t0 :: tl =>
      if t0 = key then
        match tl with
        | [] => TagLookup.crash
        | t1 :: _ => TagLookup.found t1
      else ValueFromTag rest key

/-- findDescriptionJSON embeds the first loop of `GetZapRequestFromZapEvent`
(main.go:122-127): the first tag with at least two elements whose first
element is `description` yields its second element; otherwise the variable
keeps its zero value `""`. -/
def findDescriptionJSON : List (List String) → String
  | [] => ""
  | (a :: b :: _) :: rest => if a = "description" then b else findDescriptionJSON rest
  | _ :: rest => findDescriptionJSON rest

/-- GetZapRequestFromZapEvent embeds `GetZapRequestFromZapEvent` of
main.go:120-140. `parseDesc` stands for `json.Unmarshal` into
`Description` (`none` when the string is not well-formed JSON). -/
def GetZapRequestFromZapEvent (parseDesc : String → Option Description)
    (event : Event) : Except String Description :=
  let descriptionJSON := findDescriptionJSON event.tags
  if descriptionJSON = "" then Except.error "description tag not found"
  else
    match parseDesc descriptionJSON with
    | none => Except.error "error parsing description"
    | some description => Except.ok description

/-- mapInsert models the Go map assignment `events[k] = v`: it overwrites the
binding of `k` when present, otherwise adds a new binding. -/
def mapInsert (m : List (String × Event)) (k : String) (v : Event) :
    List (String × Event) :=
  match m with
  | [] => [(k, v)]
  | (k', v') :: rest => if k' = k then (k, v) :: rest else (k', v') :: mapInsert rest k v

/-- mapLookup models reading the Go map `events[k]`. -/
def mapLookup (m : List (String × Event)) (k : String) : Option Event :=
  match m with
  | [] => none
  | (k', v') :: rest => if k' = k then some v' else mapLookup rest k

/-- zapEventsStep is the body of the subscription loop in
`GetZapEventsFromUser` (main.go:109-116): receipts failing zap-request
extraction are skipped, receipts whose recovered payer is `pubkey` are put
into the map keyed by event id. -/
def zapEventsStep (parseDesc : String → Option Description) (pubkey : String)
    (events : List (String × Event)) (ev : Event) : List (String × Event) :=
  match GetZapRequestFromZapEvent parseDesc ev with
  | Except.error _ => events
  | Except.ok zapRequest =>
    if zapRequest.pubkey = pubkey then mapInsert events ev.id ev else events

/-- GetZapEventsFromUser embeds `GetZapEventsFromUser` of main.go:97-118:
the map of zap receipts, keyed by receipt id, recovered from the multiplexed
subscription stream and filtered to the given payer. -/
def GetZapEventsFromUser (parseDesc : String → Option Description)
    (pubkey : String) (stream : List Event) : List (String × Event) :=
  stream.foldl (zapEventsStep parseDesc pubkey) []

/-- wrap64 is two's complement `int64` wraparound: the value a Go `int64`
expression takes, i.e. the mathematical result reduced modulo 2^64 into
[-2^63, 2^63). -/
def wrap64 (n : Int) : Int :=
  (n + 9223372036854775808) % 18446744073709551616 - 9223372036854775808

/-- wrap64 is the identity on values already in the `int64` range. -/
theorem wrap64_eq_self (n : Int) (h1 : -9223372036854775808 ≤ n)
    (h2 : n < 9223372036854775808) : wrap64 n = n := by
  unfold wrap64
  rw [Int.emod_eq_of_lt (by omega) (by omega)]
  omega

/-- zapSumLoop is the summation loop of `GetZapsTotalFromUser`
(main.go:147-159): per receipt, a missing bolt11 tag or a decode failure is
skipped; otherwise `decoded.MSatoshi` is added with Go `int64` addition,
which wraps on overflow (`wrap64`). A `crash` from `ValueFromTag` is a Go
panic, aborting the loop: the result is `none`. -/
def zapSumLoop (decode : String → Option Int) :
    List (String × Event) → Int → Option Int
  | [], total => some total
  | (_, ev) :: rest, total =>
    match ValueFromTag ev.tags "bolt11" with
    | TagLookup.crash => none
    | TagLookup.notFound => zapSumLoop decode rest total
    | TagLookup.found bolt11 =>
      match decode bolt11 with
      | none => zapSumLoop decode rest total
      | some msat => zapSumLoop decode rest (wrap64 (total + msat))

/-- GetZapsTotalFromUser embeds `GetZapsTotalFromUser` of main.go:142-161:
the msat amounts of the payer's deduplicated receipts are summed and the
final sum is divided once by 1000 (Go `int64` division, truncation toward
zero). `none` models a run that panics instead of returning. -/
def GetZapsTotalFromUser (parseDesc : String → Option Description)
    (decode : String → Option Int) (pubkey : String) (stream : List Event) :
    Option Int :=
  (zapSumLoop decode (GetZapEventsFromUser parseDesc pubkey stream) 0).map
    (fun total => Int.tdiv total 1000)

/-- receiptContribution is the amount a single receipt adds to the msat sum
in `GetZapsTotalFromUser`: `some 0` for a skipped receipt, `some m` for a
decoded amount `m`, `none` when the bolt11 lookup panics. -/
def receiptContribution (decode : String → Option Int) (ev : Event) :
    Option Int :=
  match ValueFromTag ev.tags "bolt11" with
  | TagLookup.crash => none
  | TagLookup.notFound => some 0
  | TagLookup.found bolt11 => some ((decode bolt11).getD 0)

/-- perReceiptZapsTotal is modelled from the words of the spec claim that the
decoded amount is "converted to whole units by integer division per receipt":
each receipt's msat amount is divided by 1000 before being added. It exists
only to be compared with `GetZapsTotalFromUser`, which divides once at the
end. -/
def perReceiptZapsTotal (parseDesc : String → Option Description)
    (decode : String → Option Int) (pubkey : String) (stream : List Event) :
    Option Int :=
  let rec loop : List (String × Event) → Int → Option Int
    | [], total => some total
    | (_, ev) :: rest, total =>
      match ValueFromTag ev.tags "bolt11" with
      | TagLookup.crash => none
      | TagLookup.notFound => loop rest total
      | TagLookup.found bolt11 =>
        match decode bolt11 with
        | none => loop rest total
        | some msat => loop rest (total + Int.tdiv msat 1000)
  loop (GetZapEventsFromUser parseDesc pubkey stream) 0

/-- CountResult is the observable outcome of `GetStoredEventsCountFromUser`
(main.go:163-178): either the function returns a count, or `log.Fatalf`
terminates the process (`fatal`) — no error value ever reaches the caller. -/
inductive CountResult where
  | fatal (msg : String)
  | count (n : Int)
deriving DecidableEq

/-- GetStoredEventsCountFromUser embeds `GetStoredEventsCountFromUser` of
main.go:163-178. `dbCount` stands for the external `db.CountEvents` call on
the author filter: `Except.error` is a store I/O failure, on which the Go
code calls `log.Fatalf` and the process terminates. -/
def GetStoredEventsCountFromUser (dbCount : Except String Int) : CountResult :=
  match dbCount with
  | Except.error e => CountResult.fatal ("Failed to query events: " ++ e)
  | Except.ok n => CountResult.count n

/-- rejectEventHook embeds the admission closure installed on
`relay.RejectEvent` in main.go:76-84, as a function of the two quantities it
reads: `userPaidAmount = GetZapsTotalFromUser(event.PubKey)` and
`userNotesCount = GetStoredEventsCountFromUser(event.PubKey, db)`. -/
def rejectEventHook (userPaidAmount userNotesCount : Int) : Bool × String :=
  if userPaidAmount < userNotesCount + 1 then (true, "no sufficient balance; top up")
  else (false, "")

/-- admissionDecision composes the admission hook with the modelled credit
aggregation: `none` models a run whose aggregation panics before deciding. -/
def admissionDecision (parseDesc : String → Option Description)
    (decode : String → Option Int) (pubkey : String) (stream : List Event)
    (storedCount : Int) : Option (Bool × String) :=
  (GetZapsTotalFromUser parseDesc decode pubkey stream).map
    (fun credit => rejectEventHook credit storedCount)

/-- GetRemainingUserBalance embeds `GetRemainingUserBalance` of
main.go:180-186: paid amount minus stored-note count, with no clamping. -/
def GetRemainingUserBalance (parseDesc : String → Option Description)
    (decode : String → Option Int) (pubkey : String) (stream : List Event)
    (storedCount : Int) : Option Int :=
  (GetZapsTotalFromUser parseDesc decode pubkey stream).map
    (fun userPaidAmount => userPaidAmount - storedCount)

/-- balanceResponse embeds the reply text built in `HandleBotCommands`
(main.go:203): `fmt.Sprintf` with verb `%v` prints an `int64` in decimal,
which is `toString` on `Int`. -/
def balanceResponse (balance : Int) : String :=
  "Your balance is " ++ toString balance ++ " sats."

/-- isWordChar is the RE2 word-character class `\x5cw = [0-9A-Za-z_]` used by
the word-boundary assertion; RE2 word boundaries are ASCII-only. -/
def isWordChar (c : Char) : Bool :=
  c.isAlphanum || c = '_'

/-- balanceChars is the literal keyword of the regex in main.go:200. Under
RE2 case folding, each of these letters matches exactly its ASCII upper and
lower case (none of b, a, l, n, c, e has a non-ASCII fold partner). -/
def balanceChars : List Char :=
  ['b', 'a', 'l', 'a', 'n', 'c', 'e']

/-- matchLower consumes `w` from the front of `cs` case-insensitively
(lowercasing `cs`), returning the remainder on success. -/
def matchLower : List Char → List Char → Option (List Char)
  | [], cs => some cs
  | _ :: _, [] => none
  | w :: ws, c :: cs => if c.toLower = w then matchLower ws cs else none

/-- boundaryBefore holds when the position is the start of the text or the
preceding character is not a word character. -/
def boundaryBefore : Option Char → Bool
  | none => true
  | some c => !isWordChar c

/-- boundaryAfter holds when the rest of the text is empty or starts with a
non-word character. -/
def boundaryAfter : List Char → Bool
  | [] => true
  | c :: _ => !isWordChar c

/-- lastChar returns the last character of `pre`, or `prev` when `pre` is
empty: the character immediately preceding the position after `pre`. -/
def lastChar (prev : Option Char) : List Char → Option Char
  | [] => prev
  | c :: cs => lastChar (some c) cs

/-- balanceAt decides whether the regex `(?mi)\x5cbbalance\x5cb` matches at
the current position, `prev` being the character just before it. -/
def balanceAt (prev : Option Char) (cs : List Char) : Bool :=
  boundaryBefore prev &&
    (match matchLower balanceChars cs with
     | some rest => boundaryAfter rest
     | none => false)

/-- balanceScan scans the text for a match position, tracking the previous
character for the word-boundary test. -/
def balanceScan (prev : Option Char) : List Char → Bool
  | [] => false
  | c :: cs => balanceAt prev (c :: cs) || balanceScan (some c) cs

/-- balanceRequest embeds `regexp.MatchString` with the pattern
`(?mi)\x5cbbalance\x5cb` of main.go:200: the `m` flag only affects anchors,
which the pattern does not use; `i` is case folding; the two boundaries
demand the keyword as a whole word. -/
def balanceRequest (content : String) : Bool :=
  balanceScan none content.data

/-- IsWholeWordBalance is the declarative reading of the claim: the word
`balance` occurs in the content as a whole word (its neighbours, when
present, are not word characters), case-insensitively. -/
def IsWholeWordBalance (content : String) : Prop :=
  ∃ pre mid post : List Char,
    content.data = pre ++ mid ++ post ∧
    mid.map Char.toLower = balanceChars ∧
    boundaryBefore (lastChar none pre) = true ∧
    boundaryAfter post = true

/-- BotReply is the record built by `PublishCommandResponseEvent`
(main.go:229-235): author pubkey, kind, tags, content. -/
structure BotReply where
  pubkey : String
  kind : Int
  tags : List (List String)
  content : String
deriving DecidableEq

/-- hasTag decides whether a tag list carries a tag whose first element is
`name` and whose second element is `val` — the shape the relay tag filter
`{name: [val]}` matches. -/
def hasTag (tags : List (List String)) (name val : String) : Bool :=
  tags.any (fun t =>
    match t with
    | a :: b :: _ => a = name && b = val
    | _ => false)

/-- PublishCommandResponseEvent embeds `PublishCommandResponseEvent` of
main.go:228-253. `derive` stands for public-key derivation from a private
key, and `signingKey` is `GetEnv("GM_BOT_PRIVATE_KEY")`: go-nostr's
`Event.Sign` derives the event's `PubKey` from the private key it is given,
overwriting the `PubKey` field preset in the literal, so the published
author is `derive signingKey`. -/
def PublishCommandResponseEvent (derive : String → String)
    (signingKey : String) (ev : Event) (content : String) : BotReply :=
  { pubkey := derive signingKey
    kind := 1
    tags := [["e", ev.id], ["p", ev.pubkey]]
    content := content }

/-- botPubkeyOf is `botPubkey` as initialised in main.go:54: the public key
derived from the `BOT_PRIVATE_KEY` environment variable. -/
def botPubkeyOf (derive : String → String) (env : String → String) : String :=
  derive (env "BOT_PRIVATE_KEY")

/-- replySigningKey is the private key handed to `event.Sign` in
main.go:236: the `GM_BOT_PRIVATE_KEY` environment variable. -/
def replySigningKey (env : String → String) : String :=
  env "GM_BOT_PRIVATE_KEY"

/-- BotCommandFulfilled embeds `BotCommandFulfilled` of main.go:211-226:
it is true iff the upstream relays hold any kind-1 event authored by
`botPubkey` carrying an `e` tag with the query id. -/
def BotCommandFulfilled (botPubkey : String) (upstream : List BotReply)
    (id : String) : Bool :=
  upstream.any (fun r => r.kind = 1 && r.pubkey = botPubkey && hasTag r.tags "e" id)

/-- BotState carries the reply events visible on the upstream relays and the
log of replies this process has broadcast. Publishing is modelled as making
the reply immediately visible upstream (the best case for deduplication). -/
structure BotState where
  upstream : List BotReply
  published : List BotReply
deriving DecidableEq

/-- handleBotStep is the body of the subscription loop of
`HandleBotCommands` (main.go:198-208): skip if a reply already exists
upstream, otherwise reply when the content matches the balance pattern.
`balance` stands for the result of `GetRemainingUserBalance` for the query's
author at this instant. -/
def handleBotStep (derive : String → String) (signingKey botPubkey : String)
    (balance : String → Int) (st : BotState) (ev : Event) : BotState :=
  if BotCommandFulfilled botPubkey st.upstream ev.id then st
  else if balanceRequest ev.content then
    let reply := PublishCommandResponseEvent derive signingKey ev
      (balanceResponse (balance ev.pubkey))
    { upstream := reply :: st.upstream, published := st.published ++ [reply] }
  else st

/-- HandleBotCommands embeds the loop of `HandleBotCommands`
(main.go:188-209) over the list of observations delivered by the live
subscription. -/
def HandleBotCommands (derive : String → String)
    (signingKey botPubkey : String) (balance : String → Int) (st : BotState)
    (stream : List Event) : BotState :=
  stream.foldl (handleBotStep derive signingKey botPubkey balance) st

/-- countRepliesTo counts the replies in a list that reference the query id
`qid` through an `e` tag. -/
def countRepliesTo (l : List BotReply) (qid : String) : Nat :=
  l.countP (fun r => hasTag r.tags "e" qid)

/-- descP is a well-formed embedded zap request authored by payer `P`. -/
def descP : Description :=
  { pubkey := "P", content := "", id := "req", createdAt := 0, sig := ""
    kind := 9734, tags := [] }

/-- parseDescEx is a concrete stand-in for JSON parsing: the string `d` is
the well-formed description payload of `descP`; all others are malformed. -/
def parseDescEx : String → Option Description :=
  fun s => if s = "d" then some descP else none

/-- mkZapEvent builds a zap receipt with an embedded description payload and
a bolt11 invoice tag. -/
def mkZapEvent (eid desc inv : String) : Event :=
  { id := eid, pubkey := "zapper", createdAt := 0, kind := 9735
    tags := [["description", desc], ["bolt11", inv]], content := "", sig := "" }

/-- decode500 is a concrete invoice decoder: two invoice strings worth 500
msat each, everything else malformed. -/
def decode500 : String → Option Int :=
  fun s => if s = "i5a" then some 500 else if s = "i5b" then some 500 else none

/-- decode1000 is a concrete invoice decoder: one invoice string worth 1000
msat, everything else malformed. -/
def decode1000 : String → Option Int :=
  fun s => if s = "i1k" then some 1000 else none

/-- evCrash is a zap receipt with a well-formed description payload and a
bolt11 tag of length one. -/
def evCrash : Event :=
  { id := "x", pubkey := "zapper", createdAt := 0, kind := 9735
    tags := [["description", "d"], ["bolt11"]], content := "", sig := "" }

/-- qev is a balance query: a kind-1 note whose content is the keyword. -/
def qev : Event :=
  { id := "q1", pubkey := "alice", createdAt := 0, kind := 1, tags := []
    content := "balance", sig := "" }

/-- envEx is an environment where `BOT_PRIVATE_KEY` and `GM_BOT_PRIVATE_KEY`
hold different keys. -/
def envEx : String → String :=
  fun k => if k = "BOT_PRIVATE_KEY" then "k1" else "k2"

/-- envSame is an environment where both private-key variables hold the same
key. -/
def envSame : String → String :=
  fun _ => "k1"

/-- Claim C1: the admission hook accepts a candidate record iff the payer's
credit C satisfies C >= U + 1 where U is the stored-record count, and on
rejection it returns the literal reason string
`no sufficient balance; top up`. -/
theorem admission_accepts_iff_credit_covers_usage (C U : Int) :
    ((rejectEventHook C U).1 = false ↔ U + 1 ≤ C) ∧
    (C < U + 1 → rejectEventHook C U = (true, "no sufficient balance; top up")) ∧
    (∀ parseDesc decode pubkey stream,
      GetZapsTotalFromUser parseDesc decode pubkey stream = some C →
      admissionDecision parseDesc decode pubkey stream U =
        some (rejectEventHook C U)) := by
  refine ⟨?_, ?_, ?_⟩
  · unfold rejectEventHook
    by_cases h : C < U + 1
    · simp only [if_pos h]
      constructor
      · intro hfalse; exact absurd hfalse (by simp)
      · intro hge; omega
    · simp only [if_neg h]
      constructor
      · intro _; omega
      · intro _; trivial
  · intro h
    unfold rejectEventHook
    simp only [if_pos h]
  · intro parseDesc decode pubkey stream h
    unfold admissionDecision
    rw [h]
    rfl

/-- Witness for C1: credit 1 and usage 3 concretely yield a rejection with
the literal reason string. -/
theorem admission_accepts_iff_credit_covers_usage_witness :
    admissionDecision parseDescEx decode1000 "P" [mkZapEvent "a" "d" "i1k"] 3 =
      some (true, "no sufficient balance; top up") := by
  have h := admission_accepts_iff_credit_covers_usage 1 3
  have h3 := h.2.2 parseDescEx decode1000 "P" [mkZapEvent "a" "d" "i1k"] (by decide)
  rw [h3, h.2.1 (by decide)]

/-- Claim C9: a failing local-store count query terminates the process
(`log.Fatalf`); no count or error value is ever returned to the caller, and
a successful query returns the count. -/
theorem stored_count_error_is_fatal :
    (∀ e, GetStoredEventsCountFromUser (Except.error e) =
      CountResult.fatal ("Failed to query events: " ++ e)) ∧
    (∀ n, GetStoredEventsCountFromUser (Except.ok n) = CountResult.count n) :=
  ⟨fun _ => rfl, fun _ => rfl⟩

/-- Claim C10: when stored usage exceeds credit, `GetRemainingUserBalance`
returns the negative difference with no clamp at zero, and the bot reply
reports that number verbatim. -/
theorem negative_balance_reported_verbatim (parseDesc : String → Option Description)
    (decode : String → Option Int) (pubkey : String) (stream : List Event)
    (C U : Int) (hC : GetZapsTotalFromUser parseDesc decode pubkey stream = some C)
    (hlt : C < U) :
    GetRemainingUserBalance parseDesc decode pubkey stream U = some (C - U) ∧
    C - U < 0 ∧
    balanceResponse (C - U) = "Your balance is " ++ toString (C - U) ++ " sats." := by
  refine ⟨?_, by omega, rfl⟩
  unfold GetRemainingUserBalance
  rw [hC]
  rfl

/-- Witness for C10: credit 1 and usage 3 yield balance -2 and the reply
`Your balance is -2 sats.`. -/
theorem negative_balance_reported_verbatim_witness :
    GetRemainingUserBalance parseDescEx decode1000 "P" [mkZapEvent "a" "d" "i1k"] 3 =
      some (-2) ∧
    balanceResponse (-2) = "Your balance is -2 sats." := by
  have h := negative_balance_reported_verbatim parseDescEx decode1000 "P"
    [mkZapEvent "a" "d" "i1k"] 1 3 (by decide) (by decide)
  exact ⟨h.1, by decide⟩

/-- Claim C5 (failing input): a receipt that passes zap-request extraction
but carries the one-element tag `["bolt11"]` makes `ValueFromTag` read
`tag[1]` out of range — a Go runtime panic that aborts the aggregation loop
instead of silently excluding the receipt. -/
theorem short_bolt11_tag_panics_aggregation :
    GetZapRequestFromZapEvent parseDescEx evCrash = Except.ok descP ∧
    ValueFromTag evCrash.tags "bolt11" = TagLookup.crash ∧
    GetZapsTotalFromUser parseDescEx decode500 "P" [evCrash] = none := by
  exact ⟨by rfl, by decide, by decide⟩

/-- Claim C2 (counterexample): the code does not divide per receipt — it
divides the msat sum once. Two receipts of 500 msat each yield credit 1,
while per-receipt division would yield 0; the second 500-msat receipt
therefore contributes a nonzero whole unit. -/
theorem zaps_total_division_per_receipt_refuted :
    GetZapsTotalFromUser parseDescEx decode500 "P"
      [mkZapEvent "a" "d" "i5a", mkZapEvent "b" "d" "i5b"] = some 1 ∧
    perReceiptZapsTotal parseDescEx decode500 "P"
      [mkZapEvent "a" "d" "i5a", mkZapEvent "b" "d" "i5b"] = some 0 ∧
    GetZapsTotalFromUser parseDescEx decode500 "P" [mkZapEvent "a" "d" "i5a"] =
      some 0 := by
  decide

/-- Claim C6 (counterexample): with `BOT_PRIVATE_KEY = k1` and
`GM_BOT_PRIVATE_KEY = k2`, the published reply's author pubkey (derived by
`Event.Sign` from the GM key) differs from `botPubkey`. -/
theorem reply_author_differs_from_bot_pubkey :
    (PublishCommandResponseEvent (fun k => k) (replySigningKey envEx) qev
      "hi").pubkey ≠ botPubkeyOf (fun k => k) envEx := by
  decide

/-- Claim C6 (amended): the reply's author pubkey is derived from the
`GM_BOT_PRIVATE_KEY` environment variable, and it equals `botPubkey` (which
is derived from `BOT_PRIVATE_KEY`) exactly when the two variables derive the
same public key. -/
theorem reply_author_is_derived_from_gm_key (derive : String → String)
    (env : String → String) (ev : Event) (content : String) :
    (PublishCommandResponseEvent derive (replySigningKey env) ev content).pubkey =
      derive (env "GM_BOT_PRIVATE_KEY") ∧
    ((PublishCommandResponseEvent derive (replySigningKey env) ev content).pubkey =
        botPubkeyOf derive env ↔
      derive (env "GM_BOT_PRIVATE_KEY") = derive (env "BOT_PRIVATE_KEY")) :=
  ⟨rfl, Iff.rfl⟩

/-- Claim C2 (amended): the minor-unit amounts of all valid receipts are
summed and the sum is converted to whole units by one integer division; a
receipt below 1000 msat yields zero credit when it is the payer's only
receipt, and a valid 3000-msat invoice alone yields exactly 3 whole
units. -/
theorem zaps_total_single_division_of_sum :
    (∀ parseDesc decode pubkey stream,
      GetZapsTotalFromUser parseDesc decode pubkey stream =
        (zapSumLoop decode (GetZapEventsFromUser parseDesc pubkey stream) 0).map
          (fun total => Int.tdiv total 1000)) ∧
    (∀ m : Int, 0 ≤ m → m < 1000 →
      GetZapsTotalFromUser parseDescEx (fun s => if s = "i" then some m else none)
        "P" [mkZapEvent "a" "d" "i"] = some 0) ∧
    GetZapsTotalFromUser parseDescEx (fun s => if s = "i" then some 3000 else none)
      "P" [mkZapEvent "a" "d" "i"] = some 3 := by
  refine ⟨fun _ _ _ _ => rfl, ?_, by decide⟩
  intro m h0 h1
  have hmap : GetZapEventsFromUser parseDescEx "P" [mkZapEvent "a" "d" "i"] =
      [("a", mkZapEvent "a" "d" "i")] := by decide
  have hval : ValueFromTag (mkZapEvent "a" "d" "i").tags "bolt11" =
      TagLookup.found "i" := by decide
  unfold GetZapsTotalFromUser
  rw [hmap]
  simp only [zapSumLoop, hval]
  simp
  rw [wrap64_eq_self m (by omega) (by omega)]
  exact Int.tdiv_eq_zero_of_lt h0 h1

/-- Witness for the amended C2: a lone 500-msat receipt yields credit 0. -/
theorem zaps_total_single_division_of_sum_witness :
    GetZapsTotalFromUser parseDescEx (fun s => if s = "i" then some 500 else none)
      "P" [mkZapEvent "a" "d" "i"] = some 0 :=
  zaps_total_single_division_of_sum.2.1 500 (by decide) (by decide)

/-- mapInsert with the binding a key already has leaves the map unchanged,
also structurally. -/
theorem mapInsert_of_lookup_eq (m : List (String × Event)) (k : String)
    (v : Event) (h : mapLookup m k = some v) : mapInsert m k v = m := by
  induction m with
  | nil => simp [mapLookup] at h
  | cons p rest ih =>
    obtain ⟨k', v'⟩ := p
    by_cases hk : k' = k
    · subst hk
      unfold mapLookup at h
      simp only [if_pos rfl] at h
      injection h with h
      unfold mapInsert
      simp [h]
    · unfold mapLookup at h
      simp only [if_neg hk] at h
      unfold mapInsert
      simp only [if_neg hk]
      rw [ih h]

/-- Aggregating an extended stream folds the extra events onto the map of
the original stream. -/
theorem getZapEvents_append (parseDesc : String → Option Description)
    (pubkey : String) (s t : List Event) :
    GetZapEventsFromUser parseDesc pubkey (s ++ t) =
      t.foldl (zapEventsStep parseDesc pubkey)
        (GetZapEventsFromUser parseDesc pubkey s) := by
  simp [GetZapEventsFromUser, List.foldl_append]

/-- Claim C3: a receipt observed again (same id, same receipt, e.g. from a
second endpoint) leaves the deduplicated receipt map structurally unchanged,
so the recomputed credit is identical — the receipt is counted once. -/
theorem duplicate_receipt_counted_once (parseDesc : String → Option Description)
    (decode : String → Option Int) (pubkey : String) (s : List Event)
    (e : Event)
    (h : mapLookup (GetZapEventsFromUser parseDesc pubkey s) e.id = some e) :
    GetZapEventsFromUser parseDesc pubkey (s ++ [e]) =
      GetZapEventsFromUser parseDesc pubkey s ∧
    GetZapsTotalFromUser parseDesc decode pubkey (s ++ [e]) =
      GetZapsTotalFromUser parseDesc decode pubkey s := by
  have hmap : GetZapEventsFromUser parseDesc pubkey (s ++ [e]) =
      GetZapEventsFromUser parseDesc pubkey s := by
    rw [getZapEvents_append]
    simp only [List.foldl_cons, List.foldl_nil]
    unfold zapEventsStep
    cases hz : GetZapRequestFromZapEvent parseDesc e with
    | error _ => rfl
    | ok zapRequest =>
      by_cases hpk : zapRequest.pubkey = pubkey
      · simp only [if_pos hpk]
        exact mapInsert_of_lookup_eq _ _ _ h
      · simp only [if_neg hpk]
  refine ⟨hmap, ?_⟩
  unfold GetZapsTotalFromUser
  rw [hmap]

/-- Witness for C3: the same 500-msat receipt delivered twice yields the
same map and the same credit as a single delivery. -/
theorem duplicate_receipt_counted_once_witness :
    GetZapsTotalFromUser parseDescEx decode500 "P"
      ([mkZapEvent "a" "d" "i5a"] ++ [mkZapEvent "a" "d" "i5a"]) =
      GetZapsTotalFromUser parseDescEx decode500 "P" [mkZapEvent "a" "d" "i5a"] :=
  (duplicate_receipt_counted_once parseDescEx decode500 "P"
    [mkZapEvent "a" "d" "i5a"] (mkZapEvent "a" "d" "i5a") (by decide)).2


/-- Equation: the summation loop on an empty map returns the accumulator. -/
theorem zapSumLoop_nil (decode : String → Option Int) (total : Int) :
    zapSumLoop decode [] total = some total := rfl

/-- Equation: a receipt whose bolt11 lookup panics aborts the loop. -/
theorem zapSumLoop_cons_crash (decode : String → Option Int) (k : String)
    (ev : Event) (rest : List (String × Event)) (total : Int)
    (h : ValueFromTag ev.tags "bolt11" = TagLookup.crash) :
    zapSumLoop decode ((k, ev) :: rest) total = none := by
  unfold zapSumLoop
  simp only [h]

/-- Equation: a receipt with no bolt11 tag is skipped. -/
theorem zapSumLoop_cons_notFound (decode : String → Option Int) (k : String)
    (ev : Event) (rest : List (String × Event)) (total : Int)
    (h : ValueFromTag ev.tags "bolt11" = TagLookup.notFound) :
    zapSumLoop decode ((k, ev) :: rest) total = zapSumLoop decode rest total := by
  conv_lhs => rw [zapSumLoop]
  simp only [h]

/-- Equation: a receipt whose invoice fails to decode is skipped. -/
theorem zapSumLoop_cons_found_none (decode : String → Option Int) (k : String)
    (ev : Event) (rest : List (String × Event)) (total : Int) (b : String)
    (h : ValueFromTag ev.tags "bolt11" = TagLookup.found b)
    (hd : decode b = none) :
    zapSumLoop decode ((k, ev) :: rest) total = zapSumLoop decode rest total := by
  conv_lhs => rw [zapSumLoop]
  simp only [h, hd]

/-- Equation: a receipt with a decodable invoice adds its msat amount with
wrapping `int64` addition. -/
theorem zapSumLoop_cons_found_some (decode : String → Option Int) (k : String)
    (ev : Event) (rest : List (String × Event)) (total : Int) (b : String)
    (msat : Int) (h : ValueFromTag ev.tags "bolt11" = TagLookup.found b)
    (hd : decode b = some msat) :
    zapSumLoop decode ((k, ev) :: rest) total =
      zapSumLoop decode rest (wrap64 (total + msat)) := by
  conv_lhs => rw [zapSumLoop]
  simp only [h, hd]


/-- idealMsatSum is the mathematical (unwrapped) sum of the msat
contributions of a receipt list — the total the loop would compute if the
`int64` accumulator never overflowed. -/
def idealMsatSum (decode : String → Option Int)
    (l : List (String × Event)) : Int :=
  l.foldr (fun p acc => (receiptContribution decode p.2).getD 0 + acc) 0

/-- Equation: the ideal sum of the empty list. -/
theorem idealMsatSum_nil (decode : String → Option Int) :
    idealMsatSum decode [] = 0 := rfl

/-- Equation: the ideal sum of a cons. -/
theorem idealMsatSum_cons (decode : String → Option Int) (p : String × Event)
    (rest : List (String × Event)) :
    idealMsatSum decode (p :: rest) =
      (receiptContribution decode p.2).getD 0 + idealMsatSum decode rest := rfl

/-- A single receipt's msat contribution is nonnegative when the decoder
only yields nonnegative amounts. -/
theorem receiptContribution_nonneg (decode : String → Option Int)
    (hdec : ∀ s m, decode s = some m → 0 ≤ m) (ev : Event) :
    0 ≤ (receiptContribution decode ev).getD 0 := by
  unfold receiptContribution
  cases hv : ValueFromTag ev.tags "bolt11" with
  | crash => simp
  | notFound => simp
  | found b =>
    cases hd : decode b with
    | none => simp [hd]
    | some m => simpa [hd] using hdec b m hd

/-- The ideal msat sum is nonnegative when the decoder only yields
nonnegative amounts. -/
theorem idealMsatSum_nonneg (decode : String → Option Int)
    (hdec : ∀ s m, decode s = some m → 0 ≤ m) :
    ∀ l, 0 ≤ idealMsatSum decode l := by
  intro l
  induction l with
  | nil => rw [idealMsatSum_nil]
  | cons p rest ih =>
    rw [idealMsatSum_cons]
    have := receiptContribution_nonneg decode hdec p.2
    omega

/-- When the decoder only yields nonnegative amounts and the ideal sum stays
below 2^63, no addition in the loop ever wraps, and the loop returns exactly
the ideal sum added to the accumulator. -/
theorem zapSumLoop_exact_of_no_overflow (decode : String → Option Int)
    (hdec : ∀ s m, decode s = some m → 0 ≤ m) :
    ∀ (l : List (String × Event)) (total : Int), 0 ≤ total →
      total + idealMsatSum decode l < 9223372036854775808 →
      ∀ t, zapSumLoop decode l total = some t →
        t = total + idealMsatSum decode l := by
  intro l
  induction l with
  | nil =>
    intro total h0 hb t ht
    rw [zapSumLoop_nil] at ht
    injection ht with ht
    rw [idealMsatSum_nil]
    omega
  | cons p rest ih =>
    intro total h0 hb t ht
    obtain ⟨k, ev⟩ := p
    rw [idealMsatSum_cons] at hb ⊢
    have hrest0 : 0 ≤ idealMsatSum decode rest := idealMsatSum_nonneg decode hdec rest
    have hc0 : 0 ≤ (receiptContribution decode (k, ev).2).getD 0 :=
      receiptContribution_nonneg decode hdec (k, ev).2
    cases hv : ValueFromTag ev.tags "bolt11" with
    | crash =>
      rw [zapSumLoop_cons_crash decode k ev rest total hv] at ht
      exact absurd ht (by simp)
    | notFound =>
      rw [zapSumLoop_cons_notFound decode k ev rest total hv] at ht
      have hcontrib : (receiptContribution decode (k, ev).2).getD 0 = 0 := by
        unfold receiptContribution
        simp only [hv, Option.getD_some]
      rw [hcontrib] at hb ⊢
      have := ih total h0 (by omega) t ht
      omega
    | found b =>
      cases hd : decode b with
      | none =>
        rw [zapSumLoop_cons_found_none decode k ev rest total b hv hd] at ht
        have hcontrib : (receiptContribution decode (k, ev).2).getD 0 = 0 := by
          unfold receiptContribution
          simp only [hv, hd, Option.getD_none, Option.getD_some]
        rw [hcontrib] at hb ⊢
        have := ih total h0 (by omega) t ht
        omega
      | some msat =>
        rw [zapSumLoop_cons_found_some decode k ev rest total b msat hv hd] at ht
        have hm : 0 ≤ msat := hdec b msat hd
        have hcontrib : (receiptContribution decode (k, ev).2).getD 0 = msat := by
          unfold receiptContribution
          simp only [hv, hd, Option.getD_some]
        rw [hcontrib] at hb ⊢
        have hw : wrap64 (total + msat) = total + msat :=
          wrap64_eq_self (total + msat) (by omega) (by omega)
        rw [hw] at ht
        have := ih (total + msat) (by omega) (by omega) t ht
        omega

/-- zapSumLoop returns an in-range accumulator untouched when every receipt
in the list contributes zero. -/
theorem zapSumLoop_all_zero (decode : String → Option Int) :
    ∀ (l : List (String × Event)) (total : Int),
      -9223372036854775808 ≤ total → total < 9223372036854775808 →
      (∀ p ∈ l, receiptContribution decode p.2 = some 0) →
      zapSumLoop decode l total = some total := by
  intro l
  induction l with
  | nil => intro total _ _ _; rfl
  | cons p rest ih =>
    intro total hlo hhi hall
    obtain ⟨k, ev⟩ := p
    have hev := hall (k, ev) (List.mem_cons_self _ _)
    have hrest : ∀ q ∈ rest, receiptContribution decode q.2 = some 0 :=
      fun q hq => hall q (List.mem_cons_of_mem _ hq)
    unfold receiptContribution at hev
    cases hv : ValueFromTag ev.tags "bolt11" with
    | crash =>
      rw [hv] at hev
      exact absurd hev (by simp)
    | notFound =>
      rw [zapSumLoop_cons_notFound decode k ev rest total hv]
      exact ih total hlo hhi hrest
    | found bolt11 =>
      rw [hv] at hev
      simp only at hev
      cases hd : decode bolt11 with
      | none =>
        rw [zapSumLoop_cons_found_none decode k ev rest total bolt11 hv hd]
        exact ih total hlo hhi hrest
      | some msat =>
        rw [zapSumLoop_cons_found_some decode k ev rest total bolt11 msat hv hd]
        rw [hd] at hev
        simp only [Option.getD_some] at hev
        injection hev with hev
        rw [hev, add_zero, wrap64_eq_self total hlo hhi]
        exact ih total hlo hhi hrest

/-- Equation: a receipt failing zap-request extraction leaves the map
unchanged. -/
theorem zapEventsStep_error (parseDesc : String → Option Description)
    (pubkey : String) (acc : List (String × Event)) (ev : Event) (e : String)
    (h : GetZapRequestFromZapEvent parseDesc ev = Except.error e) :
    zapEventsStep parseDesc pubkey acc ev = acc := by
  unfold zapEventsStep
  simp only [h]

/-- Equation: a receipt whose recovered payer matches is inserted keyed by
its id. -/
theorem zapEventsStep_ok_match (parseDesc : String → Option Description)
    (pubkey : String) (acc : List (String × Event)) (ev : Event)
    (zapRequest : Description)
    (h : GetZapRequestFromZapEvent parseDesc ev = Except.ok zapRequest)
    (hpk : zapRequest.pubkey = pubkey) :
    zapEventsStep parseDesc pubkey acc ev = mapInsert acc ev.id ev := by
  unfold zapEventsStep
  simp only [h]
  rw [if_pos hpk]

/-- Equation: a receipt whose recovered payer differs leaves the map
unchanged. -/
theorem zapEventsStep_ok_nomatch (parseDesc : String → Option Description)
    (pubkey : String) (acc : List (String × Event)) (ev : Event)
    (zapRequest : Description)
    (h : GetZapRequestFromZapEvent parseDesc ev = Except.ok zapRequest)
    (hpk : ¬zapRequest.pubkey = pubkey) :
    zapEventsStep parseDesc pubkey acc ev = acc := by
  unfold zapEventsStep
  simp only [h]
  rw [if_neg hpk]

/-- Every entry of a map produced by mapInsert is an old entry or the
inserted binding. -/
theorem mem_mapInsert (m : List (String × Event)) (k : String) (v : Event)
    (p : String × Event) (h : p ∈ mapInsert m k v) : p ∈ m ∨ p = (k, v) := by
  induction m with
  | nil =>
    unfold mapInsert at h
    simp at h
    right
    exact h
  | cons q rest ih =>
    obtain ⟨k', v'⟩ := q
    unfold mapInsert at h
    by_cases hk : k' = k
    · rw [if_pos hk] at h
      rcases List.mem_cons.mp h with h1 | h1
      · right; exact h1
      · left; exact List.mem_cons_of_mem _ h1
    · rw [if_neg hk] at h
      rcases List.mem_cons.mp h with h1 | h1
      · left; exact h1 ▸ List.mem_cons_self _ _
      · rcases ih h1 with h2 | h2
        · left; exact List.mem_cons_of_mem _ h2
        · right; exact h2

/-- Every event stored in the aggregated receipt map was delivered by the
stream and passed the payer filter — its zap-request extraction succeeded
with the requested payer identity (or it was already in the accumulator). -/
theorem getZapEvents_mem (parseDesc : String → Option Description)
    (pubkey : String) :
    ∀ (s : List Event) (acc : List (String × Event)) (p : String × Event),
      p ∈ s.foldl (zapEventsStep parseDesc pubkey) acc →
      p ∈ acc ∨ (p.2 ∈ s ∧ ∃ zapRequest,
        GetZapRequestFromZapEvent parseDesc p.2 = Except.ok zapRequest ∧
        zapRequest.pubkey = pubkey) := by
  intro s
  induction s with
  | nil => intro acc p h; left; exact h
  | cons e rest ih =>
    intro acc p h
    rw [List.foldl_cons] at h
    rcases ih (zapEventsStep parseDesc pubkey acc e) p h with h1 | ⟨hmem, zr, hok, hpk2⟩
    · cases hz : GetZapRequestFromZapEvent parseDesc e with
      | error msg =>
        rw [zapEventsStep_error parseDesc pubkey acc e msg hz] at h1
        left; exact h1
      | ok zapRequest =>
        by_cases hpk : zapRequest.pubkey = pubkey
        · rw [zapEventsStep_ok_match parseDesc pubkey acc e zapRequest hz hpk] at h1
          rcases mem_mapInsert _ _ _ _ h1 with h2 | h2
          · left; exact h2
          · right
            rw [h2]
            exact ⟨List.mem_cons_self _ _, zapRequest, hz, hpk⟩
        · rw [zapEventsStep_ok_nomatch parseDesc pubkey acc e zapRequest hz hpk] at h1
          left; exact h1
    · right; exact ⟨List.mem_cons_of_mem _ hmem, zr, hok, hpk2⟩

/-- decodeBig is a concrete invoice decoder for the overflow counterexample:
one invoice string worth 2^62 msat — a nonnegative amount representable in
`int64`, as the external decoder's `MSatoshi` field is — everything else
malformed. -/
def decodeBig : String → Option Int :=
  fun s => if s = "ibig" then some 4611686018427387904 else none

/-- descQ is a well-formed embedded zap request authored by payer `Q`. -/
def descQ : Description :=
  { pubkey := "Q", content := "", id := "reqq", createdAt := 0, sig := ""
    kind := 9734, tags := [] }

/-- parseDescTwo is a concrete stand-in for JSON parsing that knows two
well-formed payloads: `d` is payer `P`'s request and `dq` is payer `Q`'s. -/
def parseDescTwo : String → Option Description :=
  fun s => if s = "d" then some descP else if s = "dq" then some descQ else none

/-- Claim C7 (counterexample): the `int64` accumulator wraps. Two receipts of
2^62 msat each — nonnegative, `int64`-representable decoder outputs — drive
the sum to 2^63, which wraps to -2^63, so `GetZapsTotalFromUser` returns the
negative total -9223372036854775 after division. -/
theorem zaps_total_wraps_negative_on_overflow :
    GetZapsTotalFromUser parseDescEx decodeBig "P"
      [mkZapEvent "a" "d" "ibig", mkZapEvent "b" "d" "ibig"] =
      some (-9223372036854775) ∧
    (-9223372036854775 : Int) < 0 ∧
    decodeBig "ibig" = some 4611686018427387904 ∧
    (0 : Int) ≤ 4611686018427387904 ∧
    (4611686018427387904 : Int) < 9223372036854775808 := by
  decide

/-- Claim C7 (amended): assuming the external decoder only yields
nonnegative msat amounts, any total `GetZapsTotalFromUser` returns is
nonnegative provided the payer's ideal msat sum stays below 2^63 (no `int64`
overflow), and the total is exactly 0 whenever every delivered receipt
recovered for this payer contributes nothing — receipts of other payers in
the stream notwithstanding. -/
theorem zaps_total_nonneg_without_overflow_and_zero_for_payer
    (parseDesc : String → Option Description) (decode : String → Option Int)
    (pubkey : String) (stream : List Event)
    (hdec : ∀ s m, decode s = some m → 0 ≤ m) :
    (idealMsatSum decode (GetZapEventsFromUser parseDesc pubkey stream) <
        9223372036854775808 →
      ∀ t, GetZapsTotalFromUser parseDesc decode pubkey stream = some t →
        0 ≤ t) ∧
    ((∀ ev ∈ stream, ∀ zapRequest,
        GetZapRequestFromZapEvent parseDesc ev = Except.ok zapRequest →
        zapRequest.pubkey = pubkey →
        receiptContribution decode ev = some 0) →
      GetZapsTotalFromUser parseDesc decode pubkey stream = some 0) := by
  constructor
  · intro hbound t ht
    unfold GetZapsTotalFromUser at ht
    cases hz : zapSumLoop decode (GetZapEventsFromUser parseDesc pubkey stream) 0 with
    | none => rw [hz] at ht; exact absurd ht (by simp)
    | some tot =>
      rw [hz] at ht
      simp only [Option.map_some'] at ht
      injection ht with ht
      have hexact := zapSumLoop_exact_of_no_overflow decode hdec _ 0 le_rfl
        (by omega) tot hz
      have hsum := idealMsatSum_nonneg decode hdec
        (GetZapEventsFromUser parseDesc pubkey stream)
      have htot : 0 ≤ tot := by omega
      rw [← ht]
      exact Int.tdiv_nonneg htot (by decide)
  · intro hall
    have hmap : ∀ p ∈ GetZapEventsFromUser parseDesc pubkey stream,
        receiptContribution decode p.2 = some 0 := by
      intro p hp
      rcases getZapEvents_mem parseDesc pubkey stream [] p hp with
        h | ⟨hmem, zr, hok, hpk⟩
      · exact absurd h (by simp)
      · exact hall p.2 hmem zr hok hpk
    unfold GetZapsTotalFromUser
    rw [zapSumLoop_all_zero decode _ 0 (by omega) (by omega) hmap]
    simp [Int.zero_tdiv]

/-- Witness for the amended C7: payer `Q` holds a valid 500-msat receipt in
the stream while payer `P` holds none, and `P`'s total is exactly 0; the
no-overflow nonnegativity conjunct is exercised on the same instance. -/
theorem zaps_total_nonneg_without_overflow_and_zero_for_payer_witness :
    GetZapsTotalFromUser parseDescTwo decode500 "P"
      [mkZapEvent "b" "dq" "i5a"] = some 0 ∧
    (0 : Int) ≤ 0 := by
  have hdec : ∀ s m, decode500 s = some m → 0 ≤ m := by
    intro s m h
    unfold decode500 at h
    by_cases h1 : s = "i5a"
    · rw [if_pos h1] at h; injection h with h; omega
    · rw [if_neg h1] at h
      by_cases h2 : s = "i5b"
      · rw [if_pos h2] at h; injection h with h; omega
      · rw [if_neg h2] at h; exact absurd h (by simp)
  have h := zaps_total_nonneg_without_overflow_and_zero_for_payer parseDescTwo
    decode500 "P" [mkZapEvent "b" "dq" "i5a"] hdec
  have hz := h.2 (by
    intro ev hev zapRequest hok hpk
    simp only [List.mem_singleton] at hev
    subst hev
    have h2 : GetZapRequestFromZapEvent parseDescTwo (mkZapEvent "b" "dq" "i5a") =
        Except.ok descQ := by rfl
    rw [h2] at hok
    injection hok with h3
    rw [← h3] at hpk
    exact absurd hpk (by decide))
  exact ⟨hz, h.1 (by decide) 0 hz⟩

/-- Equation: matching the empty word consumes nothing. -/
theorem matchLower_nil (cs : List Char) : matchLower [] cs = some cs := rfl

/-- Equation: a nonempty word fails on empty text. -/
theorem matchLower_cons_nil (w : Char) (ws : List Char) :
    matchLower (w :: ws) [] = none := by
  rw [matchLower]

/-- Equation: a nonempty word matches the first character case-folded. -/
theorem matchLower_cons_cons (w : Char) (ws : List Char) (c : Char)
    (cs : List Char) :
    matchLower (w :: ws) (c :: cs) =
      if c.toLower = w then matchLower ws cs else none := by
  conv_lhs => rw [matchLower]

/-- matchLower succeeds exactly on texts that start with a case-folded copy
of the word, returning the remainder. -/
theorem matchLower_eq_some_iff :
    ∀ (w cs rest : List Char), matchLower w cs = some rest ↔
      ∃ mid, cs = mid ++ rest ∧ mid.map Char.toLower = w := by
  intro w
  induction w with
  | nil =>
    intro cs rest
    rw [matchLower_nil]
    constructor
    · intro h
      injection h with h
      exact ⟨[], by simp [h], rfl⟩
    · rintro ⟨mid, hcs, hmap⟩
      have hmid : mid = [] := by
        cases mid with
        | nil => rfl
        | cons m ms => simp at hmap
      subst hmid
      simp only [List.nil_append] at hcs
      rw [hcs]
  | cons wh wt ih =>
    intro cs rest
    cases cs with
    | nil =>
      rw [matchLower_cons_nil]
      constructor
      · intro h
        exact absurd h (by simp)
      · rintro ⟨mid, hcs, hmap⟩
        cases mid with
        | nil => simp at hmap
        | cons m ms => simp at hcs
    | cons c cs' =>
      rw [matchLower_cons_cons]
      by_cases hc : c.toLower = wh
      · rw [if_pos hc, ih cs' rest]
        constructor
        · rintro ⟨mid', h1, h2⟩
          exact ⟨c :: mid', by simp [h1], by simp [h2, hc]⟩
        · rintro ⟨mid, hcs, hmap⟩
          cases mid with
          | nil => simp at hmap
          | cons m ms =>
            simp only [List.cons_append, List.cons.injEq] at hcs
            simp only [List.map_cons, List.cons.injEq] at hmap
            exact ⟨ms, hcs.2, hmap.2⟩
      · rw [if_neg hc]
        constructor
        · intro h
          exact absurd h (by simp)
        · rintro ⟨mid, hcs, hmap⟩
          cases mid with
          | nil => simp at hmap
          | cons m ms =>
            simp only [List.cons_append, List.cons.injEq] at hcs
            simp only [List.map_cons, List.cons.injEq] at hmap
            have : c.toLower = wh := by rw [hcs.1]; exact hmap.1
            exact absurd this hc

/-- Equation: scanning empty text finds no match. -/
theorem balanceScan_nil (prev : Option Char) : balanceScan prev [] = false := rfl

/-- Equation: scanning tries the current position, then the rest. -/
theorem balanceScan_cons (prev : Option Char) (c : Char) (cs : List Char) :
    balanceScan prev (c :: cs) =
      (balanceAt prev (c :: cs) || balanceScan (some c) cs) := by
  conv_lhs => rw [balanceScan]

/-- Equation: the character before a position after a nonempty prefix. -/
theorem lastChar_cons (prev : Option Char) (c : Char) (cs : List Char) :
    lastChar prev (c :: cs) = lastChar (some c) cs := by
  conv_lhs => rw [lastChar]

/-- balanceScan finds a match exactly when the text splits around a
case-folded copy of the keyword with non-word characters (or text edges) on
both sides. -/
theorem balanceScan_eq_true_iff :
    ∀ (cs : List Char) (prev : Option Char),
      balanceScan prev cs = true ↔
        ∃ pre mid post, cs = pre ++ mid ++ post ∧
          mid.map Char.toLower = balanceChars ∧
          boundaryBefore (lastChar prev pre) = true ∧
          boundaryAfter post = true := by
  intro cs
  induction cs with
  | nil =>
    intro prev
    rw [balanceScan_nil]
    constructor
    · intro h
      exact absurd h (by simp)
    · rintro ⟨pre, mid, post, h1, h2, _, _⟩
      have hnil := List.append_eq_nil.mp h1.symm
      have hnil2 := List.append_eq_nil.mp hnil.1
      rw [hnil2.2] at h2
      exact absurd h2 (by simp [balanceChars])
  | cons c cs' ih =>
    intro prev
    rw [balanceScan_cons, Bool.or_eq_true, ih (some c)]
    constructor
    · rintro (hat | ⟨pre', mid, post, h1, h2, h3, h4⟩)
      · unfold balanceAt at hat
        rw [Bool.and_eq_true] at hat
        obtain ⟨hb, hm⟩ := hat
        cases hml : matchLower balanceChars (c :: cs') with
        | none =>
          rw [hml] at hm
          exact absurd hm (by simp)
        | some rest =>
          rw [hml] at hm
          obtain ⟨mid, hcs, hmap⟩ :=
            (matchLower_eq_some_iff balanceChars (c :: cs') rest).mp hml
          exact ⟨[], mid, rest, by simpa using hcs, hmap, hb, hm⟩
      · exact ⟨c :: pre', mid, post, by simp [h1], h2, h3, h4⟩
    · rintro ⟨pre, mid, post, h1, h2, h3, h4⟩
      cases pre with
      | nil =>
        left
        unfold balanceAt
        rw [Bool.and_eq_true]
        simp only [List.nil_append] at h1
        refine ⟨h3, ?_⟩
        rw [(matchLower_eq_some_iff balanceChars (c :: cs') post).mpr ⟨mid, h1, h2⟩]
        exact h4
      | cons p pre' =>
        right
        simp only [List.cons_append, List.cons.injEq] at h1
        obtain ⟨hcp, h1'⟩ := h1
        refine ⟨pre', mid, post, h1', h2, ?_, h4⟩
        rw [lastChar_cons] at h3
        rw [hcp]
        exact h3

/-- Claim C8: the command pattern matches exactly when `balance` occurs in
the content as a whole word, case-insensitively; in particular
`what is my balance?` matches and `balanced diet` does not. -/
theorem balance_pattern_whole_word :
    (∀ content, balanceRequest content = true ↔ IsWholeWordBalance content) ∧
    balanceRequest "what is my balance?" = true ∧
    balanceRequest "balanced diet" = false := by
  refine ⟨?_, by decide, by decide⟩
  intro content
  unfold balanceRequest IsWholeWordBalance
  exact balanceScan_eq_true_iff content.data none

/-- BotCommandFulfilled is monotone in the upstream event set: new events
never unanswer a query. -/
theorem botCommandFulfilled_mono (botPubkey : String) (r : BotReply)
    (upstream : List BotReply) (id : String)
    (h : BotCommandFulfilled botPubkey upstream id = true) :
    BotCommandFulfilled botPubkey (r :: upstream) id = true := by
  unfold BotCommandFulfilled at h ⊢
  rw [List.any_cons, h, Bool.or_true]

/-- The reply published for a query carries exactly one `e` tag, referencing
the query id, so it counts toward `qid` iff the query id is `qid`. -/
theorem publishedReply_hasTag (derive : String → String)
    (signingKey : String) (ev : Event) (content : String) (qid : String) :
    hasTag (PublishCommandResponseEvent derive signingKey ev content).tags
      "e" qid = decide (ev.id = qid) := by
  unfold PublishCommandResponseEvent hasTag
  simp

/-- A single CommandBot step preserves the reply-count invariant: at most
one reply referencing a query id exists, and once one exists the query is
fulfilled upstream — provided the signing key derives the pubkey used by the
fulfilled check. -/
theorem bot_step_preserves (derive : String → String)
    (signingKey botPubkey : String) (balance : String → Int)
    (hkey : derive signingKey = botPubkey) (qid : String) (st : BotState)
    (ev : Event)
    (h1 : countRepliesTo st.published qid ≤ 1)
    (h2 : countRepliesTo st.published qid = 1 →
      BotCommandFulfilled botPubkey st.upstream qid = true) :
    countRepliesTo
      (handleBotStep derive signingKey botPubkey balance st ev).published qid ≤ 1 ∧
    (countRepliesTo
        (handleBotStep derive signingKey botPubkey balance st ev).published qid = 1 →
      BotCommandFulfilled botPubkey
        (handleBotStep derive signingKey botPubkey balance st ev).upstream qid =
        true) := by
  unfold handleBotStep
  by_cases hf : BotCommandFulfilled botPubkey st.upstream ev.id
  · rw [if_pos hf]
    exact ⟨h1, h2⟩
  · rw [if_neg hf]
    by_cases hbr : balanceRequest ev.content
    · rw [if_pos hbr]
      simp only []
      have hcount : countRepliesTo
          (st.published ++ [PublishCommandResponseEvent derive signingKey ev
            (balanceResponse (balance ev.pubkey))]) qid =
          countRepliesTo st.published qid +
            (if ev.id = qid then 1 else 0) := by
        unfold countRepliesTo
        rw [List.countP_append]
        simp [List.countP_cons, publishedReply_hasTag]
      by_cases hq : ev.id = qid
      · have h0 : countRepliesTo st.published qid = 0 := by
          rcases Nat.le_one_iff_eq_zero_or_eq_one.mp h1 with h | h
          · exact h
          · exact absurd (h2 h) (by rw [← hq]; exact hf)
        constructor
        · rw [hcount, h0, if_pos hq]
        · intro _
          unfold BotCommandFulfilled
          rw [List.any_cons]
          have : (PublishCommandResponseEvent derive signingKey ev
              (balanceResponse (balance ev.pubkey))).kind = (1 : Int) := rfl
          apply Bool.or_eq_true_iff.mpr
          left
          rw [Bool.and_eq_true, Bool.and_eq_true]
          refine ⟨⟨by simp [this], ?_⟩, ?_⟩
          · have hpk : (PublishCommandResponseEvent derive signingKey ev
                (balanceResponse (balance ev.pubkey))).pubkey = derive signingKey := rfl
            rw [hpk, hkey]
            simp
          · rw [publishedReply_hasTag]
            simp [hq]
      · constructor
        · rw [hcount, if_neg hq, Nat.add_zero]
          exact h1
        · intro hc
          rw [hcount, if_neg hq, Nat.add_zero] at hc
          exact botCommandFulfilled_mono botPubkey _ st.upstream qid (h2 hc)
    · rw [if_neg hbr]
      exact ⟨h1, h2⟩

/-- Folding the CommandBot loop over any observation stream preserves the
at-most-one-reply invariant. -/
theorem handleBot_invariant (derive : String → String)
    (signingKey botPubkey : String) (balance : String → Int)
    (hkey : derive signingKey = botPubkey) (qid : String) :
    ∀ (stream : List Event) (st : BotState),
      countRepliesTo st.published qid ≤ 1 →
      (countRepliesTo st.published qid = 1 →
        BotCommandFulfilled botPubkey st.upstream qid = true) →
      countRepliesTo
        (HandleBotCommands derive signingKey botPubkey balance st stream).published
        qid ≤ 1 := by
  intro stream
  induction stream with
  | nil =>
    intro st hA hB
    exact hA
  | cons ev rest ih =>
    intro st hA hB
    unfold HandleBotCommands
    rw [List.foldl_cons]
    have hstep := bot_step_preserves derive signingKey botPubkey balance hkey qid
      st ev hA hB
    exact ih _ hstep.1 hstep.2

/-- Claim C4 (amended): when the configured reply-signing key derives the
same public key the fulfilled-check filters on, the CommandBot publishes at
most one reply per query id over any observation stream, starting from an
empty publish log and any upstream state. -/
theorem at_most_one_reply_per_query (derive : String → String)
    (signingKey botPubkey : String) (balance : String → Int)
    (hkey : derive signingKey = botPubkey) (stream : List Event)
    (upstream0 : List BotReply) (qid : String) :
    countRepliesTo
      (HandleBotCommands derive signingKey botPubkey balance
        { upstream := upstream0, published := [] } stream).published qid ≤ 1 := by
  apply handleBot_invariant derive signingKey botPubkey balance hkey qid stream
  · simp [countRepliesTo]
  · intro h
    simp [countRepliesTo] at h

/-- Witness for the amended C4: with both key variables holding the same
key, the same query observed twice gets at most one reply. -/
theorem at_most_one_reply_per_query_witness :
    countRepliesTo
      (HandleBotCommands (fun k => k) (replySigningKey envSame)
        (botPubkeyOf (fun k => k) envSame) (fun _ => 0)
        { upstream := [], published := [] } [qev, qev]).published "q1" ≤ 1 :=
  at_most_one_reply_per_query (fun k => k) (replySigningKey envSame)
    (botPubkeyOf (fun k => k) envSame) (fun _ => 0) rfl [qev, qev] [] "q1"

/-- Claim C4 (counterexample): with `BOT_PRIVATE_KEY = k1` and
`GM_BOT_PRIVATE_KEY = k2`, replies are authored by a pubkey the
fulfilled-check never matches, so the same query id observed twice yields
two published replies — more than the claimed at-most-one. -/
theorem duplicate_replies_when_signing_key_differs :
    countRepliesTo
      (HandleBotCommands (fun k => k) (replySigningKey envEx)
        (botPubkeyOf (fun k => k) envEx) (fun _ => 0)
        { upstream := [], published := [] } [qev, qev]).published "q1" = 2 := by
  decide
